import Mathlib

/-
Verification of the faucon code-space MMU (faucon_emu::memory).

The crate's public surface (src/faucon_emu/memory/sidebar-items.js) declares the
constant PAGE_SIZE, the enums LookupError and PageFlag, and the structs Memory,
Tlb and TlbEntry.  The bodies of these items are not part of the source tree, so
the behavioural definitions below are modelled from the specification document
and each such definition says so in its doc comment.
-/

set_option maxRecDepth 4096

namespace Faucon

/-- Modelled from the spec: `PAGE_SIZE`, the size of a physical memory page in
Falcon code space, in bytes.  The concrete value is not given by the available
source surface; we fix the usual Falcon code page size of 0x100 bytes. -/
def PAGE_SIZE : Nat := 256

/-- Modelled from the spec: `PageFlag`, flag bits for managing access to
physical memory pages.  The exact hardware flag set is hardware-defined; the
spec names readable, executable, usermode-accessible, busy/locked and
secret/cipher-protected bits, and a writable bit is included so that
write accesses have a flag to be checked against. -/
inductive PageFlag
  | readable
  | writable
  | executable
  | usermodeAccessible
  | busy
  | secret
deriving DecidableEq, Repr

/-- Modelled from the spec: a set of page flags, one bit per `PageFlag`. -/
structure PageFlags where
  readable : Bool
  writable : Bool
  executable : Bool
  usermodeAccessible : Bool
  busy : Bool
  secret : Bool
deriving DecidableEq, Repr

/-- Modelled from the spec: whether a flag set contains the given flag bit. -/
def PageFlags.has (f : PageFlags) : PageFlag → Bool
  | .readable => f.readable
  | .writable => f.writable
  | .executable => f.executable
  | .usermodeAccessible => f.usermodeAccessible
  | .busy => f.busy
  | .secret => f.secret

/-- Modelled from the spec: the kinds of access the execution engine can
request from `translate` (read/execute/etc.). -/
inductive AccessKind
  | read
  | write
  | execute
deriving DecidableEq, Repr

/-- Modelled from the spec: whether a cached flag set permits the requested
access kind. -/
def PageFlags.allows (f : PageFlags) : AccessKind → Bool
  | .read => f.readable
  | .write => f.writable
  | .execute => f.executable

/-- Modelled from the spec: `LookupError`, potential TLB lookup errors — the
spec's error taxonomy distinguishes `Miss` (no mapping found), `Invalid`
(mapping exists but is marked disabled) and the permission-denial condition
raised when cached flags disallow the requested access kind. -/
inductive LookupError
  | Miss
  | Invalid
  | PermissionDenied
deriving DecidableEq, Repr

/-- Modelled from the spec: the failures the memory facade can report —
`OutOfBounds` from the physical store, or a translation failure. -/
inductive MemError
  | OutOfBounds
  | Lookup (e : LookupError)
deriving DecidableEq, Repr

/-- Modelled from the spec: one physical code page — raw byte contents plus a
set of `PageFlag` bits. -/
structure Page where
  data : List Nat
  flags : PageFlags
deriving DecidableEq, Repr

/-- Modelled from the spec: `PhysicalPageStore` owns the fixed-size array of
physical code-space page frames and their flag bits. -/
structure PhysicalPageStore where
  pages : List Page
deriving DecidableEq, Repr

/-- Modelled from the spec: `read_byte(frame, offset)` returns the stored byte
and fails with `OutOfBounds` when the frame index or the offset exceeds the
store size. -/
def PhysicalPageStore.read_byte (s : PhysicalPageStore) (frame offset : Nat) :
    Except MemError Nat :=
  match s.pages[frame]? with
  | none => .error .OutOfBounds
  | some p =>
    if offset < PAGE_SIZE then .ok (p.data.getD offset 0)
    else .error .OutOfBounds

/-- Modelled from the spec: `write_byte(frame, offset, value)` mutates the
stored byte and fails with `OutOfBounds` when the frame index or the offset
exceeds the store size; on failure nothing is mutated (the error is returned
and no new store is produced). -/
def PhysicalPageStore.write_byte (s : PhysicalPageStore)
    (frame offset value : Nat) : Except MemError PhysicalPageStore :=
  match s.pages[frame]? with
  | none => .error .OutOfBounds
  | some p =>
    if offset < PAGE_SIZE then
      .ok ⟨s.pages.set frame { p with data := p.data.set offset value }⟩
    else .error .OutOfBounds

/-- Modelled from the spec: `flags(frame)` reads the flag set of a page. -/
def PhysicalPageStore.flags (s : PhysicalPageStore) (frame : Nat) :
    Option PageFlags :=
  (s.pages[frame]?).map Page.flags

/-- Modelled from the spec: `set_flags(frame, flags)` replaces the flag set of
a page; it is the only mutator of permission state. -/
def PhysicalPageStore.set_flags (s : PhysicalPageStore) (frame : Nat)
    (fl : PageFlags) : PhysicalPageStore :=
  match s.pages[frame]? with
  | none => s
  | some p => ⟨s.pages.set frame { p with flags := fl }⟩

/-- An entry in the `Tlb` that represents a physical code page.  Fields
modelled from the spec: virtual page tag, target physical frame index, flags
snapshot copied at creation (it does not auto-sync with later flag changes on
the underlying page), validity bit. -/
structure TlbEntry where
  virtualTag : Nat
  physIndex : Nat
  flags : PageFlags
  valid : Bool
deriving DecidableEq, Repr

/-- The Falcon Translation Lookaside Buffer for mapping code pages in memory.
Modelled from the spec as a fixed-capacity, FIFO-ordered collection of slots:
`slots` lists the occupied slots in install order (least recently installed
first); empty slots are the unused remainder of `capacity` and are never
re-entered once occupied. -/
structure Tlb where
  capacity : Nat
  slots : List TlbEntry
deriving DecidableEq, Repr

/-- Modelled from the spec: a fresh Tlb with every slot empty. -/
def Tlb.new (capacity : Nat) : Tlb := ⟨capacity, []⟩

/-- Modelled from the spec: `lookup(virtual_tag)` produces the matching valid
entry, `LookupError::Invalid` when the would-be match is marked invalid, and
`LookupError::Miss` when no slot matches. -/
def Tlb.lookup (t : Tlb) (tag : Nat) : Except LookupError TlbEntry :=
  match t.slots.find? (fun s => s.valid && s.virtualTag == tag) with
  | some e => .ok e
  | none =>
    if t.slots.any (fun s => s.virtualTag == tag) then .error .Invalid
    else .error .Miss

/-- Modelled from the spec: the slot list after an install.  A slot already
holding this tag is reused (discarding its prior entry unconditionally),
otherwise a free slot — an empty one, or failing that an invalidated one — is
used, and when the Tlb is full (every slot valid) the least-recently-installed
valid entry is evicted (FIFO by install order; the slot list is kept in
install order, oldest first). -/
def Tlb.insertSlots (slots : List TlbEntry) (capacity tag frame : Nat)
    (fl : PageFlags) : List TlbEntry :=
  let e : TlbEntry := ⟨tag, frame, fl, true⟩
  let rest := slots.filter (fun s => s.virtualTag != tag)
  if rest.length < capacity then rest ++ [e]
  else if rest.any (fun s => !s.valid) then
    (rest.eraseP (fun s => !s.valid)) ++ [e]
  else rest.tail ++ [e]

/-- Modelled from the spec: `insert(virtual_tag, frame_index, flags)` installs
a new entry, evicting the least-recently-installed valid entry when the Tlb is
full (see `Tlb.insertSlots`). -/
def Tlb.insert (t : Tlb) (tag frame : Nat) (fl : PageFlags) : Tlb :=
  ⟨t.capacity, Tlb.insertSlots t.slots t.capacity tag frame fl⟩

/-- Modelled from the spec: `invalidate(virtual_tag)` marks the matching
slot(s) invalid; it does not touch the physical store. -/
def Tlb.invalidate (t : Tlb) (tag : Nat) : Tlb :=
  ⟨t.capacity,
   t.slots.map (fun s =>
     if s.virtualTag == tag then { s with valid := false } else s)⟩

/-- Modelled from the spec: `invalidate_all()` marks every slot invalid. -/
def Tlb.invalidate_all (t : Tlb) : Tlb :=
  ⟨t.capacity, t.slots.map (fun s => { s with valid := false })⟩

/-- Representation of the Falcon memory space.  Modelled from the spec: an
aggregate owning exactly one `PhysicalPageStore` and one `Tlb`. -/
structure Memory where
  store : PhysicalPageStore
  tlb : Tlb
deriving DecidableEq, Repr

/-- Modelled from the spec: `translate(virtual_address)` splits the address
into virtual tag and page offset, queries the Tlb, and on a hit validates the
requested access kind against the entry's cached flags snapshot, failing with
`PermissionDenied` when the flags disallow that access. -/
def Memory.translate (m : Memory) (addr : Nat) (access : AccessKind) :
    Except LookupError (Nat × Nat) :=
  match m.tlb.lookup (addr / PAGE_SIZE) with
  | .error e => .error e
  | .ok e =>
    if e.flags.allows access then .ok (e.physIndex, addr % PAGE_SIZE)
    else .error .PermissionDenied

/-- Modelled from the spec: `read_code_byte(virtual_address)`, the composite
of translate plus a physical-store read. -/
def Memory.read_code_byte (m : Memory) (addr : Nat) : Except MemError Nat :=
  match m.translate addr .read with
  | .error e => .error (.Lookup e)
  | .ok (frame, off) => m.store.read_byte frame off

/-- Modelled from the spec: `write_code_byte(virtual_address, value)`, the
composite of translate plus a physical-store write; it fails atomically,
returning the failure alongside the unchanged memory state. -/
def Memory.write_code_byte (m : Memory) (addr value : Nat) :
    Memory × Option MemError :=
  match m.translate addr .write with
  | .error e => (m, some (.Lookup e))
  | .ok (frame, off) =>
    match m.store.write_byte frame off value with
    | .error e => (m, some e)
    | .ok s => ({ m with store := s }, none)

/-- Modelled from the spec: `set_page_flags(frame_index, flags)` delegates to
the `PhysicalPageStore` and does not re-synchronize cached Tlb entries. -/
def Memory.set_page_flags (m : Memory) (frame : Nat) (fl : PageFlags) :
    Memory :=
  { m with store := m.store.set_flags frame fl }

/-- Modelled from the spec: the Tlb operations a caller can drive, used to
describe the Tlb states reachable from the initial (empty) state. -/
inductive TlbOp
  | insert (tag frame : Nat) (fl : PageFlags)
  | invalidate (tag : Nat)
  | invalidateAll
  | lookup (tag : Nat)
deriving DecidableEq, Repr

/-- Modelled from the spec: the state reached after one operation (`lookup`
does not mutate the Tlb). -/
def Tlb.applyOp (t : Tlb) : TlbOp → Tlb
  | .insert tag frame fl => t.insert tag frame fl
  | .invalidate tag => t.invalidate tag
  | .invalidateAll => t.invalidate_all
  | .lookup _ => t

/-- Modelled from the spec: the Tlb state reached by running a sequence of
operations from a given state. -/
def Tlb.run (t : Tlb) (ops : List TlbOp) : Tlb := ops.foldl Tlb.applyOp t

/-- Kinds of items a rustdoc sidebar file declares. -/
inductive SidebarItemKind
  | constantItem
  | enumItem
  | structItem
deriving DecidableEq, Repr

/-- The public symbols declared by `initSidebarItems` in
src/faucon_emu/memory/sidebar-items.js: the kind and name of each item of the
module's visible interface, in file order. -/
def sidebarItems : List (SidebarItemKind × String) :=
  [(.constantItem, "PAGE_SIZE"),
   (.enumItem, "LookupError"),
   (.enumItem, "PageFlag"),
   (.structItem, "Memory"),
   (.structItem, "Tlb"),
   (.structItem, "TlbEntry")]

/-- Internal well-formedness of a Tlb state: the occupied slots fit in the
capacity and carry pairwise distinct virtual tags. -/
def Tlb.Inv (t : Tlb) : Prop :=
  t.slots.length ≤ t.capacity ∧
  t.slots.Pairwise (fun a b => a.virtualTag ≠ b.virtualTag)

/-- Whether an operation installs a mapping for the given virtual tag. -/
def TlbOp.insertsTag : TlbOp → Nat → Bool
  | .insert t _ _, tag => t == tag
  | _, _ => false

theorem Tlb.capacity_insert (t : Tlb) (tag frame : Nat) (fl : PageFlags) :
    (t.insert tag frame fl).capacity = t.capacity := rfl

theorem Tlb.insert_slots_shape (t : Tlb) (tag frame : Nat) (fl : PageFlags) :
    ∃ pre : List TlbEntry,
      (t.insert tag frame fl).slots = pre ++ [⟨tag, frame, fl, true⟩] ∧
      pre.Sublist (t.slots.filter (fun s => s.virtualTag != tag)) := by
  show ∃ pre, Tlb.insertSlots t.slots t.capacity tag frame fl = pre ++ _ ∧ _
  simp only [Tlb.insertSlots]
  split
  · exact ⟨_, rfl, List.Sublist.refl _⟩
  · split
    · exact ⟨_, rfl, List.eraseP_sublist _⟩
    · exact ⟨_, rfl, List.tail_sublist _⟩

theorem mem_filter_tag_ne {slots : List TlbEntry} {tag : Nat} {s : TlbEntry}
    (h : s ∈ slots.filter (fun s => s.virtualTag != tag)) :
    s.virtualTag ≠ tag := by
  have := List.of_mem_filter h
  simpa using this

theorem Tlb.lookup_insert_self (t : Tlb) (tag frame : Nat) (fl : PageFlags) :
    (t.insert tag frame fl).lookup tag = .ok ⟨tag, frame, fl, true⟩ := by
  obtain ⟨pre, hshape, hsub⟩ := t.insert_slots_shape tag frame fl
  have hpre : ∀ s ∈ pre, ¬((s.valid && s.virtualTag == tag) = true) := by
    intro s hs
    have hne : s.virtualTag ≠ tag := mem_filter_tag_ne (hsub.subset hs)
    simp [hne]
  unfold Tlb.lookup
  rw [hshape, List.find?_append, List.find?_eq_none.mpr hpre]
  simp [List.find?_cons]

theorem Tlb.insert_slots_length (t : Tlb) (tag frame : Nat) (fl : PageFlags)
    (hcap : 0 < t.capacity) (hlen : t.slots.length ≤ t.capacity) :
    (t.insert tag frame fl).slots.length ≤ t.capacity := by
  have hfl : (t.slots.filter (fun s => s.virtualTag != tag)).length ≤
      t.slots.length := List.length_filter_le _ _
  show (Tlb.insertSlots t.slots t.capacity tag frame fl).length ≤ t.capacity
  simp only [Tlb.insertSlots]
  split
  · next h1 => simp only [List.length_append, List.length_cons, List.length_nil]; omega
  · next h1 =>
    split
    · next h2 =>
      obtain ⟨x, hx, hxv⟩ := List.any_eq_true.mp h2
      have he := @List.length_eraseP_of_mem _
        (t.slots.filter (fun s => s.virtualTag != tag)) x
        (fun s => !s.valid) hx hxv
      have hpos : 0 < (t.slots.filter (fun s => s.virtualTag != tag)).length :=
        List.length_pos_of_mem hx
      simp only [List.length_append, List.length_cons, List.length_nil, he]
      omega
    · next h2 =>
      have ht := List.length_tail (t.slots.filter (fun s => s.virtualTag != tag))
      simp only [List.length_append, List.length_cons, List.length_nil, ht]
      omega

theorem Tlb.insert_slots_pairwise (t : Tlb) (tag frame : Nat) (fl : PageFlags)
    (hpw : t.slots.Pairwise (fun a b => a.virtualTag ≠ b.virtualTag)) :
    (t.insert tag frame fl).slots.Pairwise
      (fun a b => a.virtualTag ≠ b.virtualTag) := by
  obtain ⟨pre, hshape, hsub⟩ := t.insert_slots_shape tag frame fl
  rw [hshape]
  refine List.pairwise_append.mpr ⟨?_, ?_, ?_⟩
  · exact hpw.sublist (hsub.trans (List.filter_sublist _))
  · simp
  · intro a ha b hb
    have hb' : b = ⟨tag, frame, fl, true⟩ := by simpa using hb
    subst hb'
    exact mem_filter_tag_ne (hsub.subset ha)

theorem Tlb.inv_insert (t : Tlb) (tag frame : Nat) (fl : PageFlags)
    (hcap : 0 < t.capacity) (h : t.Inv) : (t.insert tag frame fl).Inv :=
  ⟨by
    rw [Tlb.capacity_insert]
    exact t.insert_slots_length tag frame fl hcap h.1,
   t.insert_slots_pairwise tag frame fl h.2⟩

theorem Tlb.inv_invalidate (t : Tlb) (tag : Nat) (h : t.Inv) :
    (t.invalidate tag).Inv := by
  obtain ⟨hlen, hpw⟩ := h
  have hf : ∀ s : TlbEntry,
      (if s.virtualTag == tag then { s with valid := false } else s).virtualTag
        = s.virtualTag := by
    intro s
    split <;> rfl
  constructor
  · simpa [Tlb.invalidate] using hlen
  · show (t.slots.map _).Pairwise _
    rw [List.pairwise_map]
    exact hpw.imp (fun hab => by rw [hf _, hf _]; exact hab)

theorem Tlb.inv_invalidate_all (t : Tlb) (h : t.Inv) : t.invalidate_all.Inv := by
  obtain ⟨hlen, hpw⟩ := h
  constructor
  · simpa [Tlb.invalidate_all] using hlen
  · show (t.slots.map _).Pairwise _
    rw [List.pairwise_map]
    exact hpw.imp (fun hab => hab)

theorem Tlb.inv_new (cap : Nat) : (Tlb.new cap).Inv := by
  constructor <;> simp [Tlb.new]

theorem Tlb.capacity_applyOp (t : Tlb) (op : TlbOp) :
    (t.applyOp op).capacity = t.capacity := by
  cases op <;> rfl

theorem Tlb.inv_applyOp (t : Tlb) (op : TlbOp) (hcap : 0 < t.capacity)
    (h : t.Inv) : (t.applyOp op).Inv := by
  cases op with
  | insert tag frame fl => exact t.inv_insert tag frame fl hcap h
  | invalidate tag => exact t.inv_invalidate tag h
  | invalidateAll => exact t.inv_invalidate_all h
  | lookup _ => exact h

theorem Tlb.capacity_run (t : Tlb) (ops : List TlbOp) :
    (t.run ops).capacity = t.capacity := by
  induction ops generalizing t with
  | nil => rfl
  | cons op ops ih =>
    show ((t.applyOp op).run ops).capacity = _
    rw [ih, t.capacity_applyOp]

theorem Tlb.inv_run (t : Tlb) (ops : List TlbOp) (hcap : 0 < t.capacity)
    (h : t.Inv) : (t.run ops).Inv := by
  induction ops generalizing t with
  | nil => exact h
  | cons op ops ih =>
    show ((t.applyOp op).run ops).Inv
    exact ih _ (by rw [t.capacity_applyOp]; exact hcap) (t.inv_applyOp op hcap h)

theorem Tlb.no_tag_applyOp (t : Tlb) (op : TlbOp) (tag : Nat)
    (hop : op.insertsTag tag = false)
    (h : ∀ s ∈ t.slots, s.virtualTag ≠ tag) :
    ∀ s ∈ (t.applyOp op).slots, s.virtualTag ≠ tag := by
  cases op with
  | insert tag' frame fl =>
    obtain ⟨pre, hshape, hsub⟩ := t.insert_slots_shape tag' frame fl
    intro s hs
    have hs' : s ∈ pre ++ [(⟨tag', frame, fl, true⟩ : TlbEntry)] := by
      rw [← hshape]; exact hs
    rcases List.mem_append.mp hs' with h1 | h1
    · exact h s ((hsub.trans (List.filter_sublist _)).subset h1)
    · have hst : s = ⟨tag', frame, fl, true⟩ := by simpa using h1
      subst hst
      have : tag' ≠ tag := by simpa [TlbOp.insertsTag] using hop
      simpa using this
  | invalidate tag' =>
    intro s hs
    obtain ⟨a, ha, hfa⟩ := List.mem_map.mp hs
    have hva : (if a.virtualTag == tag' then
        ({ a with valid := false } : TlbEntry) else a).virtualTag
          = a.virtualTag := by
      split <;> rfl
    rw [← hfa, hva]
    exact h a ha
  | invalidateAll =>
    intro s hs
    obtain ⟨a, ha, hfa⟩ := List.mem_map.mp hs
    rw [← hfa]
    exact h a ha
  | lookup tag' => exact h

theorem Tlb.no_tag_run (t : Tlb) (ops : List TlbOp) (tag : Nat)
    (hops : ∀ op ∈ ops, op.insertsTag tag = false)
    (h : ∀ s ∈ t.slots, s.virtualTag ≠ tag) :
    ∀ s ∈ (t.run ops).slots, s.virtualTag ≠ tag := by
  induction ops generalizing t with
  | nil => exact h
  | cons op ops ih =>
    show ∀ s ∈ ((t.applyOp op).run ops).slots, _
    exact ih _ (fun o ho => hops o (List.mem_cons_of_mem _ ho))
      (t.no_tag_applyOp op tag (hops op (List.mem_cons_self _ _)) h)

theorem Tlb.lookup_of_no_tag (t : Tlb) (tag : Nat)
    (h : ∀ s ∈ t.slots, s.virtualTag ≠ tag) :
    t.lookup tag = .error .Miss := by
  have hany : ¬(t.slots.any (fun s => s.virtualTag == tag) = true) := by
    intro hc
    obtain ⟨x, hx, hbeq⟩ := List.any_eq_true.mp hc
    exact h x hx (by simpa using hbeq)
  unfold Tlb.lookup
  rw [List.find?_eq_none.mpr (fun x hx => by simp [h x hx]), if_neg hany]

theorem Memory.translate_store_update (m : Memory) (s : PhysicalPageStore)
    (addr : Nat) (a : AccessKind) :
    ({ m with store := s } : Memory).translate addr a = m.translate addr a :=
  rfl

theorem Memory.translate_ok_elim (m : Memory) (addr : Nat) (a : AccessKind)
    (fo : Nat × Nat) (h : m.translate addr a = .ok fo) :
    ∃ e, m.tlb.lookup (addr / PAGE_SIZE) = .ok e ∧
      e.flags.allows a = true ∧ fo = (e.physIndex, addr % PAGE_SIZE) := by
  unfold Memory.translate at h
  cases hlk : m.tlb.lookup (addr / PAGE_SIZE) with
  | error e =>
    rw [hlk] at h
    simp at h
  | ok e =>
    rw [hlk] at h
    have h' : (if e.flags.allows a = true then
        (Except.ok (e.physIndex, addr % PAGE_SIZE) :
          Except LookupError (Nat × Nat))
        else .error .PermissionDenied) = .ok fo := h
    by_cases hal : e.flags.allows a = true
    · rw [if_pos hal] at h'
      exact ⟨e, rfl, hal, (Except.ok.inj h').symm⟩
    · rw [if_neg hal] at h'
      simp at h'

theorem PhysicalPageStore.read_byte_in_bounds (s : PhysicalPageStore)
    (frame off : Nat) (p : Page)
    (hp : s.pages[frame]? = some p) (ho : off < PAGE_SIZE) :
    s.read_byte frame off = .ok (p.data.getD off 0) := by
  unfold PhysicalPageStore.read_byte
  rw [hp]
  show (if off < PAGE_SIZE then
      (Except.ok (p.data.getD off 0) : Except MemError Nat)
      else .error .OutOfBounds) = _
  rw [if_pos ho]

theorem PhysicalPageStore.write_byte_in_bounds (s : PhysicalPageStore)
    (frame off value : Nat) (p : Page)
    (hp : s.pages[frame]? = some p) (ho : off < PAGE_SIZE) :
    s.write_byte frame off value =
      .ok ⟨s.pages.set frame { p with data := p.data.set off value }⟩ := by
  unfold PhysicalPageStore.write_byte
  rw [hp]
  show (if off < PAGE_SIZE then
      (Except.ok (⟨s.pages.set frame { p with data := p.data.set off value }⟩ :
        PhysicalPageStore) : Except MemError PhysicalPageStore)
      else .error .OutOfBounds) = _
  rw [if_pos ho]

theorem PhysicalPageStore.read_byte_oob (s : PhysicalPageStore)
    (frame off : Nat) (h : s.pages.length ≤ frame ∨ PAGE_SIZE ≤ off) :
    s.read_byte frame off = .error .OutOfBounds := by
  unfold PhysicalPageStore.read_byte
  by_cases hf : frame < s.pages.length
  · rw [List.getElem?_eq_getElem hf]
    show (if off < PAGE_SIZE then
        (Except.ok (s.pages[frame].data.getD off 0) : Except MemError Nat)
        else .error .OutOfBounds) = _
    rw [if_neg (by omega)]
  · rw [List.getElem?_eq_none (by omega)]

theorem PhysicalPageStore.write_byte_oob (s : PhysicalPageStore)
    (frame off value : Nat)
    (h : s.pages.length ≤ frame ∨ PAGE_SIZE ≤ off) :
    s.write_byte frame off value = .error .OutOfBounds := by
  unfold PhysicalPageStore.write_byte
  by_cases hf : frame < s.pages.length
  · rw [List.getElem?_eq_getElem hf]
    show (if off < PAGE_SIZE then
        (Except.ok (⟨s.pages.set frame
          { s.pages[frame] with
              data := s.pages[frame].data.set off value }⟩ :
          PhysicalPageStore) : Except MemError PhysicalPageStore)
        else .error .OutOfBounds) = _
    rw [if_neg (by omega)]
  · rw [List.getElem?_eq_none (by omega)]

theorem Memory.write_code_byte_ok (m : Memory) (addr value frame off : Nat)
    (s : PhysicalPageStore)
    (hw : m.translate addr .write = .ok (frame, off))
    (hs : m.store.write_byte frame off value = .ok s) :
    m.write_code_byte addr value = ({ m with store := s }, none) := by
  unfold Memory.write_code_byte
  rw [hw]
  show (match m.store.write_byte frame off value with
    | .error e => (m, some e)
    | .ok s => ({ m with store := s }, none)) = _
  rw [hs]

theorem Memory.read_code_byte_ok (m : Memory) (addr frame off : Nat)
    (hr : m.translate addr .read = .ok (frame, off)) :
    m.read_code_byte addr = m.store.read_byte frame off := by
  unfold Memory.read_code_byte
  rw [hr]

/-- A concrete flag set with read, write and execute permission. -/
def fl0 : PageFlags := ⟨true, true, true, false, false, false⟩

/-- A concrete flag set whose Executable bit is cleared. -/
def flNoExec : PageFlags := ⟨true, true, false, false, false, false⟩

/-- A capacity-4 Tlb holding tags 1..4, installed in that order. -/
def demoTlb4 : Tlb :=
  (Tlb.new 4).run
    [.insert 1 11 fl0, .insert 2 12 fl0, .insert 3 13 fl0, .insert 4 14 fl0]

/-- A concrete operation sequence exercising insertion, re-insertion,
invalidation, eviction and a full flush on a capacity-4 Tlb. -/
def demoOps : List TlbOp :=
  [.insert 1 11 fl0, .insert 2 12 fl0, .lookup 1, .insert 1 21 fl0,
   .invalidate 2, .insert 3 13 fl0, .insert 4 14 fl0, .insert 5 15 fl0,
   .insert 6 16 fl0, .invalidateAll, .insert 7 17 fl0]

/-- Claim C1: whenever the Tlb is full (every slot holds a valid entry) and
`insert` is called with a tag no slot currently holds, the entry evicted is
exactly the least-recently-installed valid entry: the install-ordered slot
list loses its head (the oldest install) and keeps everything else, with the
new entry appended as the youngest.  The choice is deterministic and
reproducible since `Tlb.insert` is a pure function of the state and
arguments. -/
theorem tlb_full_insert_evicts_fifo (t : Tlb) (tag frame : Nat)
    (fl : PageFlags)
    (hfull : t.slots.length = t.capacity)
    (hvalid : ∀ s ∈ t.slots, s.valid = true)
    (hfresh : ∀ s ∈ t.slots, s.virtualTag ≠ tag) :
    (t.insert tag frame fl).slots
      = t.slots.tail ++ [⟨tag, frame, fl, true⟩] := by
  have hfilter : t.slots.filter (fun s => s.virtualTag != tag) = t.slots :=
    List.filter_eq_self.mpr (fun s hs => by simp [hfresh s hs])
  have hnoinv : ¬(t.slots.any (fun s => !s.valid) = true) := by
    intro hc
    obtain ⟨x, hx, hxv⟩ := List.any_eq_true.mp hc
    rw [hvalid x hx] at hxv
    simp at hxv
  show Tlb.insertSlots t.slots t.capacity tag frame fl = _
  simp only [Tlb.insertSlots, hfilter]
  rw [if_neg (by omega), if_neg hnoinv]

/-- Witness for C1 at the spec scenario: a full capacity-4 Tlb holding tags
1..4; inserting tag 5 drops the slot for tag 1 and keeps the rest, after
which tag 1 misses and tags 2..5 hit. -/
theorem tlb_full_insert_evicts_fifo_demo :
    (demoTlb4.insert 5 15 fl0).slots
        = demoTlb4.slots.tail ++ [⟨5, 15, fl0, true⟩] ∧
    (demoTlb4.insert 5 15 fl0).lookup 1 = .error .Miss ∧
    (demoTlb4.insert 5 15 fl0).lookup 2 = .ok ⟨2, 12, fl0, true⟩ ∧
    (demoTlb4.insert 5 15 fl0).lookup 3 = .ok ⟨3, 13, fl0, true⟩ ∧
    (demoTlb4.insert 5 15 fl0).lookup 4 = .ok ⟨4, 14, fl0, true⟩ ∧
    (demoTlb4.insert 5 15 fl0).lookup 5 = .ok ⟨5, 15, fl0, true⟩ :=
  ⟨tlb_full_insert_evicts_fifo demoTlb4 5 15 fl0 (by decide) (by decide)
      (by decide),
   rfl, rfl, rfl, rfl, rfl⟩

/-- Claim C2: after `insert(tag, frame, flags)`, `lookup(tag)` returns an
entry referencing `frame` whose flags snapshot is exactly the flags given at
insertion time, and a subsequent `set_page_flags(frame, other_flags)` on the
memory facade leaves that cached snapshot unchanged (staleness of the
snapshot). -/
theorem tlb_flags_snapshot_stale (m : Memory) (tag frame : Nat)
    (fl fl2 : PageFlags) :
    ({ m with tlb := m.tlb.insert tag frame fl } : Memory).tlb.lookup tag
        = .ok ⟨tag, frame, fl, true⟩ ∧
    (({ m with tlb := m.tlb.insert tag frame fl } : Memory).set_page_flags
        frame fl2).tlb.lookup tag = .ok ⟨tag, frame, fl, true⟩ :=
  ⟨m.tlb.lookup_insert_self tag frame fl,
   m.tlb.lookup_insert_self tag frame fl⟩

/-- Claim C3: in every Tlb state reachable from the initial empty state by
insert, lookup, invalidate and invalidate_all, no two valid slots hold the
same virtual tag and the number of valid entries never exceeds the fixed
capacity. -/
theorem tlb_reachable_tags_unique (cap : Nat) (ops : List TlbOp)
    (hcap : 0 < cap) :
    ((Tlb.new cap).run ops).slots.Pairwise
      (fun a b => a.valid = true → b.valid = true →
        a.virtualTag ≠ b.virtualTag) ∧
    ((Tlb.new cap).run ops).slots.countP (fun s => s.valid) ≤ cap := by
  have hinv := (Tlb.new cap).inv_run ops hcap (Tlb.inv_new cap)
  refine ⟨hinv.2.imp (fun hab => fun _ _ => hab), ?_⟩
  calc ((Tlb.new cap).run ops).slots.countP (fun s => s.valid)
      ≤ ((Tlb.new cap).run ops).slots.length := List.countP_le_length _
    _ ≤ ((Tlb.new cap).run ops).capacity := hinv.1
    _ = cap := (Tlb.new cap).capacity_run ops

/-- Witness for C3: the invariant instantiated on a concrete capacity-4 Tlb
driven through inserts, a duplicate re-insert, invalidations, evictions and a
full flush. -/
theorem tlb_reachable_tags_unique_demo :
    ((Tlb.new 4).run demoOps).slots.Pairwise
      (fun a b => a.valid = true → b.valid = true →
        a.virtualTag ≠ b.virtualTag) ∧
    ((Tlb.new 4).run demoOps).slots.countP (fun s => s.valid) ≤ 4 :=
  tlb_reachable_tags_unique 4 demoOps (by decide)

/-- Claim C4: looking up a virtual tag that no insert of the operation
sequence ever installed returns `Miss` — not `Invalid` and not a valid
entry. -/
theorem lookup_uninserted_tag_misses (cap : Nat) (ops : List TlbOp)
    (tag : Nat) (h : ∀ op ∈ ops, op.insertsTag tag = false) :
    ((Tlb.new cap).run ops).lookup tag = .error .Miss :=
  Tlb.lookup_of_no_tag _ tag
    ((Tlb.new cap).no_tag_run ops tag h (by simp [Tlb.new]))

/-- Witness for C4: tag 9 is never inserted by the demo operation sequence,
and its lookup misses. -/
theorem lookup_uninserted_tag_misses_demo :
    ((Tlb.new 4).run demoOps).lookup 9 = .error .Miss :=
  lookup_uninserted_tag_misses 4 demoOps 9 (by decide)

/-- Claim C5: after `invalidate_all`, a lookup of any virtual tag returns
either `Miss` or `Invalid`; it never returns a valid entry from before the
flush. -/
theorem lookup_after_invalidate_all (t : Tlb) (tag : Nat) :
    t.invalidate_all.lookup tag = .error .Miss ∨
    t.invalidate_all.lookup tag = .error .Invalid := by
  have hfind : t.invalidate_all.slots.find?
      (fun s => s.valid && s.virtualTag == tag) = none := by
    refine List.find?_eq_none.mpr ?_
    intro x hx
    have hx' : x ∈ t.slots.map (fun s => { s with valid := false }) := hx
    obtain ⟨a, ha, hfa⟩ := List.mem_map.mp hx'
    rw [← hfa]
    simp
  unfold Tlb.lookup
  by_cases hany :
      t.invalidate_all.slots.any (fun s => s.virtualTag == tag) = true
  · right
    rw [hfind, if_pos hany]
  · left
    rw [hfind, if_neg hany]

/-- A memory with one zero-filled physical page mapped rw/x at virtual tag 0. -/
def demoMemRW : Memory :=
  ⟨⟨[⟨List.replicate 256 0, fl0⟩]⟩, (Tlb.new 4).insert 0 0 fl0⟩

/-- A memory whose Tlb is empty: every translation misses. -/
def demoMemEmpty : Memory :=
  ⟨⟨[⟨List.replicate 256 0, fl0⟩]⟩, Tlb.new 4⟩

/-- A memory mapping virtual tag 0 to frame 3 with the Executable bit
cleared in the cached flags. -/
def demoMemNoExec : Memory :=
  ⟨⟨[⟨List.replicate 256 0, fl0⟩]⟩, (Tlb.new 4).insert 0 3 flNoExec⟩

/-- Claim C6: round-trip through the memory facade — when translation of a
virtual address succeeds for both the write and the read access kinds, the
target frame exists and pages hold `PAGE_SIZE` bytes, `write_code_byte`
succeeds and a subsequent `read_code_byte` of the same virtual address
returns exactly the written value. -/
theorem write_then_read_roundtrip (m : Memory) (addr value frame off : Nat)
    (hw : m.translate addr .write = .ok (frame, off))
    (hr : m.translate addr .read = .ok (frame, off))
    (hframe : frame < m.store.pages.length)
    (hwf : ∀ p ∈ m.store.pages, p.data.length = PAGE_SIZE) :
    (m.write_code_byte addr value).2 = none ∧
    (m.write_code_byte addr value).1.read_code_byte addr = .ok value := by
  have hps : 0 < PAGE_SIZE := by decide
  obtain ⟨e, hlk, hal, hfo⟩ := m.translate_ok_elim addr .write (frame, off) hw
  have hoff : off = addr % PAGE_SIZE := congrArg Prod.snd hfo
  have hofflt : off < PAGE_SIZE := by rw [hoff]; exact Nat.mod_lt _ hps
  obtain ⟨p, hp⟩ : ∃ p, m.store.pages[frame]? = some p :=
    ⟨_, List.getElem?_eq_getElem hframe⟩
  have hpeq : p = m.store.pages[frame] := by
    have h2 := List.getElem?_eq_getElem hframe
    rw [hp] at h2
    exact Option.some.inj h2
  have hpmem : p ∈ m.store.pages := hpeq ▸ List.getElem_mem hframe
  have hplen : p.data.length = PAGE_SIZE := hwf p hpmem
  have hofflen : off < p.data.length := by rw [hplen]; exact hofflt
  have hwbyte := m.store.write_byte_in_bounds frame off value p hp hofflt
  have hwcb := m.write_code_byte_ok addr value frame off _ hw hwbyte
  rw [hwcb]
  refine ⟨rfl, ?_⟩
  have hr' : ({ m with store := ⟨m.store.pages.set frame
      { p with data := p.data.set off value }⟩ } : Memory).translate
        addr .read = .ok (frame, off) := by
    rw [Memory.translate_store_update]
    exact hr
  show Memory.read_code_byte _ addr = _
  rw [Memory.read_code_byte_ok _ addr frame off hr']
  have hp2 : (m.store.pages.set frame
      { p with data := p.data.set off value })[frame]? =
        some { p with data := p.data.set off value } :=
    List.getElem?_set_self hframe
  rw [PhysicalPageStore.read_byte_in_bounds _ frame off _ hp2 hofflt]
  rw [List.getD_eq_getElem?_getD, List.getElem?_set_self hofflen]
  rfl

/-- Witness for C6: writing byte 42 at virtual address 5 of the demo memory
and reading it back returns 42. -/
theorem write_then_read_roundtrip_demo :
    (demoMemRW.write_code_byte 5 42).2 = none ∧
    (demoMemRW.write_code_byte 5 42).1.read_code_byte 5 = .ok 42 :=
  write_then_read_roundtrip demoMemRW 5 42 0 5 rfl rfl (by decide) (by decide)

/-- Claim C7: when translation of a virtual address fails (Miss, Invalid or
permission denial), `write_code_byte` returns the failure and the memory
state — physical store contents and flags, and all Tlb slots — completely
unchanged, and `read_code_byte` returns the same failure; no partial state
change occurs. -/
theorem code_byte_access_fail_atomic (m : Memory) (addr value : Nat)
    (ew er : LookupError) :
    (m.translate addr .write = .error ew →
      m.write_code_byte addr value = (m, some (.Lookup ew))) ∧
    (m.translate addr .read = .error er →
      m.read_code_byte addr = .error (.Lookup er)) := by
  constructor
  · intro h
    unfold Memory.write_code_byte
    rw [h]
  · intro h
    unfold Memory.read_code_byte
    rw [h]

/-- Witness for C7: on the empty-Tlb memory every translation misses, the
write reports the miss with the memory returned untouched, and the read
reports the same miss. -/
theorem code_byte_access_fail_atomic_demo :
    demoMemEmpty.write_code_byte 5 42 = (demoMemEmpty, some (.Lookup .Miss)) ∧
    demoMemEmpty.read_code_byte 5 = .error (.Lookup .Miss) :=
  ⟨(code_byte_access_fail_atomic demoMemEmpty 5 42 .Miss .Miss).1 rfl,
   (code_byte_access_fail_atomic demoMemEmpty 5 42 .Miss .Miss).2 rfl⟩

/-- Claim C8: `read_byte` and `write_byte` fail with `OutOfBounds` exactly
when the frame index is beyond the fixed frame count or the offset is beyond
`PAGE_SIZE`, and succeed exactly otherwise — the error is returned to the
caller, never silently clamped, and a failing write produces no new store. -/
theorem store_byte_access_bounds (s : PhysicalPageStore)
    (frame off value : Nat) :
    (s.read_byte frame off = .error .OutOfBounds ↔
      s.pages.length ≤ frame ∨ PAGE_SIZE ≤ off) ∧
    (s.write_byte frame off value = .error .OutOfBounds ↔
      s.pages.length ≤ frame ∨ PAGE_SIZE ≤ off) ∧
    ((s.read_byte frame off).isOk = true ↔
      frame < s.pages.length ∧ off < PAGE_SIZE) ∧
    ((s.write_byte frame off value).isOk = true ↔
      frame < s.pages.length ∧ off < PAGE_SIZE) := by
  by_cases hf : frame < s.pages.length
  · by_cases ho : off < PAGE_SIZE
    · obtain ⟨p, hp⟩ : ∃ p, s.pages[frame]? = some p :=
        ⟨_, List.getElem?_eq_getElem hf⟩
      rw [s.read_byte_in_bounds frame off p hp ho,
        s.write_byte_in_bounds frame off value p hp ho]
      exact ⟨⟨fun h => by simp at h, fun h => absurd h (by omega)⟩,
        ⟨fun h => by simp at h, fun h => absurd h (by omega)⟩,
        ⟨fun _ => ⟨hf, ho⟩, fun _ => rfl⟩,
        ⟨fun _ => ⟨hf, ho⟩, fun _ => rfl⟩⟩
    · rw [s.read_byte_oob frame off (Or.inr (by omega)),
        s.write_byte_oob frame off value (Or.inr (by omega))]
      exact ⟨⟨fun _ => Or.inr (by omega), fun _ => rfl⟩,
        ⟨fun _ => Or.inr (by omega), fun _ => rfl⟩,
        ⟨fun h => by simp [Except.isOk, Except.toBool] at h, fun h => absurd h.2 ho⟩,
        ⟨fun h => by simp [Except.isOk, Except.toBool] at h, fun h => absurd h.2 ho⟩⟩
  · rw [s.read_byte_oob frame off (Or.inl (by omega)),
      s.write_byte_oob frame off value (Or.inl (by omega))]
    exact ⟨⟨fun _ => Or.inl (by omega), fun _ => rfl⟩,
      ⟨fun _ => Or.inl (by omega), fun _ => rfl⟩,
      ⟨fun h => by simp [Except.isOk, Except.toBool] at h, fun h => absurd h.1 hf⟩,
      ⟨fun h => by simp [Except.isOk, Except.toBool] at h, fun h => absurd h.1 hf⟩⟩

/-- Claim C9: for every virtual address that hits a valid Tlb entry and for
every requested access kind (read, write, execute), `translate` validates the
access kind against the entry's cached flags snapshot and fails with
`PermissionDenied` whenever the snapshot disallows that access — it is never
silently allowed.  The execute-access case with Executable=false is the
instance `e.flags.allows .execute = false`, i.e. `e.flags.executable =
false`. -/
theorem translate_denied_access_permission_denied (m : Memory) (addr : Nat)
    (a : AccessKind) (e : TlbEntry)
    (hlk : m.tlb.lookup (addr / PAGE_SIZE) = .ok e)
    (hdeny : e.flags.allows a = false) :
    m.translate addr a = .error .PermissionDenied := by
  unfold Memory.translate
  rw [hlk]
  show (if e.flags.allows a = true then
      (Except.ok (e.physIndex, addr % PAGE_SIZE) :
        Except LookupError (Nat × Nat))
      else .error .PermissionDenied) = _
  rw [if_neg (by simp [hdeny])]

/-- Witness for C9 at the spec scenario and at a read-denial: virtual tag 0
maps to frame 3 with Executable=false in the cached flags, so an
execute-access translation of address 16 is denied; on the same memory a
hypothetical entry with all permission bits cleared is denied a read. -/
theorem translate_denied_access_permission_denied_demo :
    demoMemNoExec.translate 16 .execute = .error .PermissionDenied ∧
    ({ demoMemNoExec with
        tlb := (Tlb.new 4).insert 0 3
          ⟨false, false, false, false, false, false⟩ } : Memory).translate
      16 .read = .error .PermissionDenied :=
  ⟨translate_denied_access_permission_denied demoMemNoExec 16 .execute
      ⟨0, 3, flNoExec, true⟩ rfl rfl,
   translate_denied_access_permission_denied _ 16 .read
      ⟨0, 3, ⟨false, false, false, false, false, false⟩, true⟩ rfl rfl⟩

/-- Claim C10: the declared public surface of the module is exactly six
symbols — the constant `PAGE_SIZE`, the enums `LookupError` and `PageFlag`,
and the structs `Memory`, `Tlb` and `TlbEntry` — which is fewer than 20. -/
theorem public_surface_six_symbols :
    sidebarItems.map Prod.snd =
      ["PAGE_SIZE", "LookupError", "PageFlag", "Memory", "Tlb", "TlbEntry"] ∧
    sidebarItems.length = 6 ∧
    sidebarItems.length < 20 ∧
    sidebarItems.countP (fun it => it.1 == SidebarItemKind.constantItem) = 1 ∧
    sidebarItems.countP (fun it => it.1 == SidebarItemKind.enumItem) = 2 ∧
    sidebarItems.countP (fun it => it.1 == SidebarItemKind.structItem) = 3 :=
  ⟨rfl, rfl, by decide, rfl, rfl, rfl⟩

end Faucon
